import Mathlib

set_option maxRecDepth 8000

/-!
Shallow embedding of src/secp256k1-sys/depend/secp256k1/src/ecdsa_impl.h.

Byte buffers are lists of natural numbers (a well-formed byte is < 256); the
C cursor pair (moving pointer, fixed end pointer) becomes the list of bytes
that are still unread, returned alongside each result.  A C function that
returns 0 or -1 for failure becomes Option-valued, or returns an explicit Bool
flag when its out-parameters on failure matter.

The scalar, field and group arithmetic live in sibling files of the original
repository that are not part of this source tree; where a definition below
depends on them it is modelled from the spec (sections 3 and 6 of spec.md)
and says so in its doc comment.  Scalars are ZMod secp256k1_n, field elements
are ZMod secp256k1_p, and the curve group is an arbitrary additive commutative
group G with an abstract x-coordinate assignment xc : G -> ZMod secp256k1_p
(the Jacobian x/z^2 test of gej_eq_x_var is modelled as equality with this
affine x-coordinate; Jacobian infinity is the group identity).
-/

/-- Group order n of secp256k1 (SEC2 2.7.1); the scalar modulus, the value of
the constant rustsecp256k1_v0_1_0_ecdsa_const_order_as_fe. -/
def secp256k1_n : ℕ :=
  0xFFFFFFFFFFFFFFFFFFFFFFFFFFFFFFFEBAAEDCE6AF48A03BBFD25E8CD0364141

/-- Field prime p of secp256k1. -/
def secp256k1_p : ℕ :=
  0xFFFFFFFFFFFFFFFFFFFFFFFFFFFFFFFFFFFFFFFFFFFFFFFFFFFFFFFEFFFFFC2F

instance : NeZero secp256k1_n := ⟨by decide⟩

instance : NeZero secp256k1_p := ⟨by decide⟩

instance : Fact (1 < secp256k1_n) := ⟨by norm_num [secp256k1_n]⟩

instance : Fact (1 < secp256k1_p) := ⟨by norm_num [secp256k1_p]⟩

/-- Constant n expressed as a field element (ecdsa_impl.h lines 31-34). -/
def rustsecp256k1_v0_1_0_ecdsa_const_order_as_fe : ZMod secp256k1_p :=
  ((secp256k1_n : ℕ) : ZMod secp256k1_p)

/-- Constant p - n expressed as a field element (ecdsa_impl.h lines 45-47). -/
def rustsecp256k1_v0_1_0_ecdsa_const_p_minus_order : ZMod secp256k1_p :=
  ((secp256k1_p - secp256k1_n : ℕ) : ZMod secp256k1_p)

/-- Big-endian byte-list decoding (most significant byte first). -/
def be_decode (l : List ℕ) : ℕ := l.foldl (fun a b => a * 256 + b) 0

/-- Big-endian encoding of v into exactly k bytes (value taken mod 256^k). -/
def beBytes : ℕ → ℕ → List ℕ
  | 0, _ => []
  | k + 1, v => beBytes k (v / 256) ++ [v % 256]

/-- Long-form accumulation loop of rustsecp256k1_v0_1_0_der_read_len
(ecdsa_impl.h lines 83-91).  ret is the accumulator, the second argument is
lenleft, the octets not yet consumed.  The bound check mirrors the C test
ret + lenleft > sigend - sigp, performed after ret is updated and before the
current octet is consumed (so the remaining buffer there is 1 + l.length). -/
def der_read_len_loop : ℕ → ℕ → List ℕ → Option (ℕ × List ℕ)
  | ret, 0, l => some (ret, l)
  | _, _ + 1, [] => none
  | ret, lenleft + 1, b :: l =>
    let ret2 := ret <<< 8 ||| b
    if l.length + 1 < ret2 + (lenleft + 1) then none
    else der_read_len_loop ret2 lenleft l

/-- rustsecp256k1_v0_1_0_der_read_len (ecdsa_impl.h lines 49-97): decode one
DER length octet sequence; none models the C return value -1.  The check
lenleft > sizeof(size_t) is modelled with sizeof(size_t) = 8 (64-bit). -/
def rustsecp256k1_v0_1_0_der_read_len : List ℕ → Option (ℕ × List ℕ)
  | [] => none
  | b1 :: rest =>
    if b1 = 0xFF then none
    else if b1 &&& 0x80 = 0 then some (b1, rest)
    else if b1 = 0x80 then none
    else
      let lenleft := b1 &&& 0x7F
      if rest.length < lenleft then none
      else if rest.headD 0 = 0 then none
      else if 8 < lenleft then none
      else
        match der_read_len_loop 0 lenleft rest with
        | none => none
        | some (ret, rest2) => if ret < 128 then none else some (ret, rest2)

/-- Modelled from the spec (3. Scalar): rustsecp256k1_v0_1_0_scalar_set_b32,
which lives in scalar_impl.h outside this source tree.  Decodes 32 big-endian
bytes into a scalar mod n, reporting overflow when the raw value is >= n. -/
def rustsecp256k1_v0_1_0_scalar_set_b32 (l : List ℕ) : ZMod secp256k1_n × Bool :=
  (((be_decode l : ℕ) : ZMod secp256k1_n), decide (secp256k1_n ≤ be_decode l))

/-- rustsecp256k1_v0_1_0_der_parse_integer (ecdsa_impl.h lines 99-143).
Returns (success flag, value of the output scalar r after the call, cursor).
On failure r is returned unchanged, mirroring the C code, which never writes
r before returning 0; the cursor returned on failure is not meaningful (the
callers abort).  The final if mirrors the overflow handling: the C code calls
scalar_set_b32 only when the pre-overflow flag is clear, and resets r to zero
whenever either the pre-overflow flag or the set_b32 overflow flag is set. -/
def rustsecp256k1_v0_1_0_der_parse_integer (r : ZMod secp256k1_n) :
    List ℕ → Bool × ZMod secp256k1_n × List ℕ
  | [] => (false, r, [])
  | t :: rest =>
    if t ≠ 0x02 then (false, r, t :: rest)
    else
      match rustsecp256k1_v0_1_0_der_read_len rest with
      | none => (false, r, rest)
      | some (rlen, rest2) =>
        if rlen = 0 ∨ rest2.length < rlen then (false, r, rest2)
        else if rest2.headD 0 = 0 ∧ 1 < rlen ∧ rest2.tail.headD 0 &&& 0x80 = 0 then
          (false, r, rest2)
        else if rest2.headD 0 = 0xFF ∧ 1 < rlen ∧ rest2.tail.headD 0 &&& 0x80 = 0x80 then
          (false, r, rest2)
        else
          let overflow0 := rest2.headD 0 &&& 0x80 = 0x80
          let core := (rest2.take rlen).dropWhile (fun b => b == 0)
          let ra := List.replicate (32 - core.length) 0 ++ core
          let sb := rustsecp256k1_v0_1_0_scalar_set_b32 ra
          if overflow0 ∨ 32 < core.length ∨ sb.2 = true then (true, 0, rest2.drop rlen)
          else (true, sb.1, rest2.drop rlen)

/-- rustsecp256k1_v0_1_0_ecdsa_sig_parse (ecdsa_impl.h lines 145-175).
Takes the values held by the output scalars rr and rs before the call and
returns (success flag, final rr, final rs). -/
def rustsecp256k1_v0_1_0_ecdsa_sig_parse (rr rs : ZMod secp256k1_n) (sig : List ℕ) :
    Bool × ZMod secp256k1_n × ZMod secp256k1_n :=
  match sig with
  | [] => (false, rr, rs)
  | b :: rest =>
    if b ≠ 0x30 then (false, rr, rs)
    else
      match rustsecp256k1_v0_1_0_der_read_len rest with
      | none => (false, rr, rs)
      | some (rlen, rest2) =>
        if rest2.length < rlen then (false, rr, rs)
        else if rlen ≠ rest2.length then (false, rr, rs)
        else
          let pr := rustsecp256k1_v0_1_0_der_parse_integer rr rest2
          if pr.1 = false then (false, pr.2.1, rs)
          else
            let ps := rustsecp256k1_v0_1_0_der_parse_integer rs pr.2.2
            if ps.1 = false then (false, pr.2.1, ps.2.1)
            else if ps.2.2 ≠ [] then (false, pr.2.1, ps.2.1)
            else (true, pr.2.1, ps.2.1)

/-- Modelled from the spec (3. Scalar): rustsecp256k1_v0_1_0_scalar_get_b32,
which lives outside this source tree: the canonical 32 big-endian bytes of a
scalar. -/
def rustsecp256k1_v0_1_0_scalar_get_b32 (a : ZMod secp256k1_n) : List ℕ :=
  beBytes 32 a.val

/-- Leading-byte stripping loop of ecdsa_sig_serialize (ecdsa_impl.h lines
183-184): drop a leading zero byte while more than one byte remains and the
following byte is below 0x80. -/
def sig_strip : List ℕ → List ℕ
  | a :: b :: rest => if a = 0 ∧ b < 0x80 then sig_strip (b :: rest) else a :: b :: rest
  | l => l

/-- rustsecp256k1_v0_1_0_ecdsa_sig_serialize (ecdsa_impl.h lines 177-199).
The first component models the output buffer: none when the function returns
0 without writing (buffer too small), some bytes when it returns 1.  The
second component models the size out-parameter, always set to 6+lenS+lenR. -/
def rustsecp256k1_v0_1_0_ecdsa_sig_serialize (size : ℕ) (ar as : ZMod secp256k1_n) :
    Option (List ℕ) × ℕ :=
  let rb := sig_strip (0 :: rustsecp256k1_v0_1_0_scalar_get_b32 ar)
  let sb := sig_strip (0 :: rustsecp256k1_v0_1_0_scalar_get_b32 as)
  let lenR := rb.length
  let lenS := sb.length
  if size < 6 + lenS + lenR then (none, 6 + lenS + lenR)
  else
    (some ([0x30, 4 + lenS + lenR, 0x02, lenR] ++ rb ++ [0x02, lenS] ++ sb),
      6 + lenS + lenR)

/-- Binary modular exponentiation with explicit fuel, so that the definition
is executable by the kernel (the exponent below has 256 bits). -/
def powModAux : ℕ → ZMod secp256k1_n → ℕ → ZMod secp256k1_n
  | 0, _, _ => 1
  | fuel + 1, b, e =>
    if e = 0 then 1
    else (if e % 2 = 1 then b else 1) * powModAux fuel (b * b) (e / 2)

/-- Modelled from the spec (6. collaborator contracts): the scalar modular
inverse rustsecp256k1_v0_1_0_scalar_inverse of scalar_impl.h, which computes
x^(n-2) mod n (Fermat, n prime); rustsecp256k1_v0_1_0_scalar_inverse_var
computes the same function. -/
def rustsecp256k1_v0_1_0_scalar_inverse (x : ZMod secp256k1_n) : ZMod secp256k1_n :=
  powModAux 257 x (secp256k1_n - 2)

/-- Modelled from the spec (3. Scalar): the predicate scalar_is_high of
scalar_impl.h: s is in the high half of the scalar range, s > n/2. -/
def rustsecp256k1_v0_1_0_scalar_is_high (s : ZMod secp256k1_n) : Bool :=
  decide (secp256k1_n / 2 < s.val)

/-- Modelled from the spec (6. collaborator contracts): the double-scalar
multiplication rustsecp256k1_v0_1_0_ecmult of ecmult_impl.h, computing
na·A + ng·G over the curve group, here an arbitrary additive commutative
group. -/
def rustsecp256k1_v0_1_0_ecmult {G : Type} [AddCommGroup G] (a gen : G)
    (na ng : ZMod secp256k1_n) : G :=
  na.val • a + ng.val • gen

/-- Modelled from the spec (6. collaborator contracts): the generator
multiplication rustsecp256k1_v0_1_0_ecmult_gen of ecmult_gen_impl.h,
computing k·G. -/
def rustsecp256k1_v0_1_0_ecmult_gen {G : Type} [AddCommGroup G] (gen : G)
    (k : ZMod secp256k1_n) : G :=
  k.val • gen

/-- Point R recomputed by ecdsa_sig_verify (ecdsa_impl.h lines 214-218):
u2·Q + u1·G with u1 = s⁻¹·m and u2 = s⁻¹·r. -/
def ecdsa_verify_point {G : Type} [AddCommGroup G] (gen q : G)
    (sigr sigs m : ZMod secp256k1_n) : G :=
  let sn := rustsecp256k1_v0_1_0_scalar_inverse sigs
  rustsecp256k1_v0_1_0_ecmult q gen (sn * sigr) (sn * m)

/-- Two-candidate x-coordinate test of ecdsa_sig_verify (ecdsa_impl.h lines
254-267).  The Jacobian test xr·z² ≡ x (mod p) of gej_eq_x_var is modelled
as equality with the abstract affine x-coordinate xc pr; the comparison
fe_cmp_var(xr, p_minus_order) >= 0 is a comparison of canonical values. -/
def ecdsa_check_x {G : Type} [AddCommGroup G] (xc : G → ZMod secp256k1_p)
    (pr : G) (xr : ZMod secp256k1_p) : Bool :=
  if xc pr = xr then true
  else if rustsecp256k1_v0_1_0_ecdsa_const_p_minus_order.val ≤ xr.val then false
  else decide (xc pr = xr + rustsecp256k1_v0_1_0_ecdsa_const_order_as_fe)

/-- rustsecp256k1_v0_1_0_ecdsa_sig_verify (ecdsa_impl.h lines 201-269),
production (non-exhaustive-test) path.  xc is the abstract affine
x-coordinate of a group element; the point at infinity is the group
identity; xr is the field element obtained by reinterpreting the 32-byte
encoding of sigr (scalar_get_b32 then fe_set_b32, hence the value sigr.val,
which is below n < p). -/
def rustsecp256k1_v0_1_0_ecdsa_sig_verify {G : Type} [AddCommGroup G] [DecidableEq G]
    (xc : G → ZMod secp256k1_p) (gen q : G) (sigr sigs m : ZMod secp256k1_n) : Bool :=
  if sigr = 0 ∨ sigs = 0 then false
  else
    let pr := ecdsa_verify_point gen q sigr sigs m
    if pr = 0 then false
    else ecdsa_check_x xc pr ((sigr.val : ℕ) : ZMod secp256k1_p)

/-- Result of a successful ecdsa_sig_sign: the two output scalars and the
optional recovery id out-parameter. -/
structure EcdsaSignResult where
  sigr : ZMod secp256k1_n
  sigs : ZMod secp256k1_n
  recid : Option ℕ
deriving DecidableEq

/-- Scalar r computed by ecdsa_sig_sign (ecdsa_impl.h lines 278-283): the
x-coordinate of nonce·G, reduced mod n by scalar_set_b32. -/
def ecdsa_sign_r {G : Type} [AddCommGroup G] (xc : G → ZMod secp256k1_p)
    (gen : G) (nonce : ZMod secp256k1_n) : ZMod secp256k1_n :=
  (((xc (rustsecp256k1_v0_1_0_ecmult_gen gen nonce)).val : ℕ) : ZMod secp256k1_n)

/-- Scalar s computed by ecdsa_sig_sign before the low-s normalization
(ecdsa_impl.h lines 294-297): nonce⁻¹ · (r·seckey + message). -/
def ecdsa_sign_s {G : Type} [AddCommGroup G] (xc : G → ZMod secp256k1_p)
    (gen : G) (seckey message nonce : ZMod secp256k1_n) : ZMod secp256k1_n :=
  rustsecp256k1_v0_1_0_scalar_inverse nonce *
    (ecdsa_sign_r xc gen nonce * seckey + message)

/-- Recovery id computed by ecdsa_sig_sign before the low-s normalization
(ecdsa_impl.h line 292): bit 1 set when the x-coordinate overflowed mod n,
bit 0 set when the y-coordinate of nonce·G is odd. -/
def ecdsa_sign_recid0 {G : Type} [AddCommGroup G] (xc : G → ZMod secp256k1_p)
    (isOdd : G → Bool) (gen : G) (nonce : ZMod secp256k1_n) : ℕ :=
  (if secp256k1_n ≤ (xc (rustsecp256k1_v0_1_0_ecmult_gen gen nonce)).val then 2 else 0) |||
    (if isOdd (rustsecp256k1_v0_1_0_ecmult_gen gen nonce) then 1 else 0)

/-- rustsecp256k1_v0_1_0_ecdsa_sig_sign (ecdsa_impl.h lines 271-311).
isOdd is the abstract y-parity of a group element (fe_is_odd of r.y);
wantRecid models whether the recid out-pointer is non-NULL.  none models the
failure return 0 (s = 0); the VERIFY_CHECK assertions of lines 285-286
compile to nothing in production builds and are not modelled. -/
def rustsecp256k1_v0_1_0_ecdsa_sig_sign {G : Type} [AddCommGroup G]
    (xc : G → ZMod secp256k1_p) (isOdd : G → Bool) (gen : G)
    (seckey message nonce : ZMod secp256k1_n) (wantRecid : Bool) :
    Option EcdsaSignResult :=
  let sigr := ecdsa_sign_r xc gen nonce
  let sigs := ecdsa_sign_s xc gen seckey message nonce
  let recid0 := ecdsa_sign_recid0 xc isOdd gen nonce
  if sigs = 0 then none
  else if rustsecp256k1_v0_1_0_scalar_is_high sigs then
    some ⟨sigr, -sigs, if wantRecid then some (recid0 ^^^ 1) else none⟩
  else
    some ⟨sigr, sigs, if wantRecid then some recid0 else none⟩

/-! Helper lemmas about bitwise tests on bytes. -/

theorem land128_of_lt {b : ℕ} (h : b < 128) : b &&& 0x80 = 0 := by
  have hall : ∀ x : Fin 128, (x : ℕ) &&& 0x80 = 0 := by decide
  exact hall ⟨b, h⟩

theorem land128_of_ge {b : ℕ} (hb : b < 256) (h : 128 ≤ b) : b &&& 0x80 = 0x80 := by
  have hall : ∀ x : Fin 128, ((x : ℕ) + 128) &&& 0x80 = 0x80 := by decide
  have hx := hall ⟨b - 128, by omega⟩
  have hb2 : b - 128 + 128 = b := by omega
  rw [hb2] at hx
  exact hx

theorem land127_of_lt {b : ℕ} (h : b < 128) : b &&& 0x7F = b := by
  have hall : ∀ x : Fin 128, (x : ℕ) &&& 0x7F = (x : ℕ) := by decide
  exact hall ⟨b, h⟩

theorem lt_128_of_land128_eq_zero {b : ℕ} (hb : b < 256) (h : b &&& 0x80 = 0) :
    b < 128 := by
  by_contra hc
  push_neg at hc
  rw [land128_of_ge hb hc] at h
  norm_num at h

/-! Helper lemmas about the DER length decoder. -/

theorem der_read_len_short {b : ℕ} (rest : List ℕ) (h : b < 128) :
    rustsecp256k1_v0_1_0_der_read_len (b :: rest) = some (b, rest) := by
  have hne : b ≠ 0xFF := by omega
  simp only [rustsecp256k1_v0_1_0_der_read_len]
  rw [if_neg hne, if_pos (land128_of_lt h)]

theorem der_read_len_loop_sound :
    ∀ (k : ℕ) (l : List ℕ) (acc ret : ℕ) (rest : List ℕ),
      der_read_len_loop acc k l = some (ret, rest) →
      ret = (l.take k).foldl (fun a b => a <<< 8 ||| b) acc ∧ rest = l.drop k := by
  intro k
  induction k with
  | zero =>
    intro l acc ret rest h
    simp only [der_read_len_loop, Option.some.injEq, Prod.mk.injEq] at h
    simp [h.1.symm, h.2.symm]
  | succ k ih =>
    intro l acc ret rest h
    cases l with
    | nil => simp [der_read_len_loop] at h
    | cons b t =>
      rw [der_read_len_loop] at h
      by_cases hc : t.length + 1 < (acc <<< 8 ||| b) + (k + 1)
      · rw [if_pos hc] at h
        simp at h
      · rw [if_neg hc] at h
        have := ih t (acc <<< 8 ||| b) ret rest h
        simpa using this

/-- C7: the DER length decoder fails on a first length byte 0xFF, fails on
0x80 (indefinite form), fails on every long-form input whose accumulated
length value is below 128, and succeeds on every first byte with clear high
bit, returning that byte's low 7 bits. -/
theorem der_read_len_rules :
    (∀ rest : List ℕ, rustsecp256k1_v0_1_0_der_read_len (0xFF :: rest) = none) ∧
    (∀ rest : List ℕ, rustsecp256k1_v0_1_0_der_read_len (0x80 :: rest) = none) ∧
    (∀ (b1 : ℕ) (rest : List ℕ), b1 < 256 → 0x80 < b1 → b1 ≠ 0xFF →
      (rest.take (b1 &&& 0x7F)).foldl (fun a b => a <<< 8 ||| b) 0 < 128 →
      rustsecp256k1_v0_1_0_der_read_len (b1 :: rest) = none) ∧
    (∀ (b1 : ℕ) (rest : List ℕ), b1 < 256 → b1 &&& 0x80 = 0 →
      rustsecp256k1_v0_1_0_der_read_len (b1 :: rest) = some (b1 &&& 0x7F, rest)) := by
  refine ⟨fun rest => rfl, fun rest => rfl, ?_, ?_⟩
  · intro b1 rest h256 hgt hne hacc
    have h80 : b1 &&& 0x80 = 0x80 := land128_of_ge h256 (by omega)
    simp only [rustsecp256k1_v0_1_0_der_read_len]
    rw [if_neg hne, if_neg (by rw [h80]; norm_num), if_neg (by omega)]
    by_cases hl : rest.length < b1 &&& 0x7F
    · rw [if_pos hl]
    · rw [if_neg hl]
      by_cases hz : rest.headD 0 = 0
      · rw [if_pos hz]
      · rw [if_neg hz]
        by_cases h8 : 8 < b1 &&& 0x7F
        · rw [if_pos h8]
        · rw [if_neg h8]
          rcases hloop : der_read_len_loop 0 (b1 &&& 0x7F) rest with _ | ⟨ret, rest2⟩
          · simp
          · have hs := der_read_len_loop_sound (b1 &&& 0x7F) rest 0 ret rest2 hloop
            simp only []
            rw [if_pos (by rw [hs.1]; exact hacc)]
  · intro b1 rest h256 hclear
    have hlt : b1 < 128 := lt_128_of_land128_eq_zero h256 hclear
    rw [der_read_len_short rest hlt, land127_of_lt hlt]

/-- Witness for der_read_len_rules at concrete inputs: a reserved 0xFF length
byte, an indefinite 0x80 length byte, a long-form length 0x81 05 whose value
5 is below 128, and a short-form byte 0x05. -/
theorem der_read_len_rules_witness :
    rustsecp256k1_v0_1_0_der_read_len [0xFF, 1] = none ∧
    rustsecp256k1_v0_1_0_der_read_len [0x80, 1] = none ∧
    rustsecp256k1_v0_1_0_der_read_len [0x81, 5] = none ∧
    rustsecp256k1_v0_1_0_der_read_len [5, 9, 9] = some (5 &&& 0x7F, [9, 9]) :=
  ⟨der_read_len_rules.1 [1], der_read_len_rules.2.1 [1],
    der_read_len_rules.2.2.1 0x81 [5] (by decide) (by decide) (by decide) (by decide),
    der_read_len_rules.2.2.2 5 [9, 9] (by decide) (by decide)⟩

/-- C4: when the DER integer parser passes the tag, length and padding
checks but the integer overflows a scalar (leading byte with high bit set,
or more than 32 bytes after skipping leading zeros, or a 32-byte value at
least n), it still succeeds, sets the output scalar to zero, and advances
the cursor past the integer. -/
theorem der_parse_integer_overflow_to_zero (r0 : ZMod secp256k1_n)
    (rest rest2 : List ℕ) (rlen : ℕ)
    (hlen : rustsecp256k1_v0_1_0_der_read_len rest = some (rlen, rest2))
    (h0 : rlen ≠ 0) (hb : rlen ≤ rest2.length)
    (hz : ¬(rest2.headD 0 = 0 ∧ 1 < rlen ∧ rest2.tail.headD 0 &&& 0x80 = 0))
    (hf : ¬(rest2.headD 0 = 0xFF ∧ 1 < rlen ∧ rest2.tail.headD 0 &&& 0x80 = 0x80))
    (hov : rest2.headD 0 &&& 0x80 = 0x80 ∨
      32 < ((rest2.take rlen).dropWhile (fun b => b == 0)).length ∨
      secp256k1_n ≤ be_decode (List.replicate
          (32 - ((rest2.take rlen).dropWhile (fun b => b == 0)).length) 0 ++
        (rest2.take rlen).dropWhile (fun b => b == 0))) :
    rustsecp256k1_v0_1_0_der_parse_integer r0 (0x02 :: rest) =
      (true, 0, rest2.drop rlen) := by
  simp only [rustsecp256k1_v0_1_0_der_parse_integer, hlen]
  rw [if_neg (by simp), if_neg (by omega)]
  rw [if_neg hz, if_neg hf]
  simp only [rustsecp256k1_v0_1_0_scalar_set_b32, decide_eq_true_eq]
  rw [if_pos hov]

/-- Witness for der_parse_integer_overflow_to_zero: the INTEGER 02 01 80,
whose single content byte has the high bit set (a negative value). -/
theorem der_parse_integer_overflow_witness :
    rustsecp256k1_v0_1_0_der_parse_integer 5 [0x02, 1, 0x80] =
      (true, 0, ([0x80] : List ℕ).drop 1) :=
  der_parse_integer_overflow_to_zero 5 [1, 0x80] [0x80] 1 (by decide) (by decide)
    (by decide) (by decide) (by decide) (by decide)

/-- C9 counterexample: a failing run of the signature parser that leaves the
r output scalar populated from the input.  The buffer 30 04 02 01 01 00 has
a well-formed first INTEGER (value 1), then fails on the second INTEGER tag
byte 00; the parse reports failure with the r scalar already overwritten
from its initial 0 to 1. -/
theorem ecdsa_sig_parse_writes_r_on_failure :
    (rustsecp256k1_v0_1_0_ecdsa_sig_parse 0 0 [0x30, 4, 2, 1, 1, 0]).1 = false ∧
    (rustsecp256k1_v0_1_0_ecdsa_sig_parse 0 0 [0x30, 4, 2, 1, 1, 0]).2.1 = 1 := by
  constructor
  · decide
  · decide

/-- C9 amended: the DER integer parser itself never writes its output scalar
on failure (it is returned unchanged); only the enclosing signature parser
can leave a fully-parsed r scalar behind when a later step fails. -/
theorem der_parse_integer_unchanged_on_failure (r : ZMod secp256k1_n)
    (sig : List ℕ) (h : (rustsecp256k1_v0_1_0_der_parse_integer r sig).1 = false) :
    (rustsecp256k1_v0_1_0_der_parse_integer r sig).2.1 = r := by
  cases sig with
  | nil => rfl
  | cons t rest =>
    by_cases h1 : t ≠ 0x02
    · simp only [rustsecp256k1_v0_1_0_der_parse_integer]
      rw [if_pos h1]
    · rcases hrl : rustsecp256k1_v0_1_0_der_read_len rest with _ | ⟨rlen, rest2⟩
      · simp only [rustsecp256k1_v0_1_0_der_parse_integer, hrl, if_neg h1]
      · simp only [rustsecp256k1_v0_1_0_der_parse_integer, hrl, if_neg h1] at h ⊢
        by_cases h2 : rlen = 0 ∨ rest2.length < rlen
        · rw [if_pos h2]
        · rw [if_neg h2] at h ⊢
          by_cases h3 : rest2.headD 0 = 0 ∧ 1 < rlen ∧ rest2.tail.headD 0 &&& 0x80 = 0
          · rw [if_pos h3]
          · rw [if_neg h3] at h ⊢
            by_cases h4 : rest2.headD 0 = 0xFF ∧ 1 < rlen ∧
                rest2.tail.headD 0 &&& 0x80 = 0x80
            · rw [if_pos h4]
            · rw [if_neg h4] at h ⊢
              by_cases h5 : rest2.headD 0 &&& 0x80 = 0x80 ∨
                  32 < ((rest2.take rlen).dropWhile (fun b => b == 0)).length ∨
                  (rustsecp256k1_v0_1_0_scalar_set_b32 (List.replicate
                      (32 - ((rest2.take rlen).dropWhile (fun b => b == 0)).length) 0 ++
                    (rest2.take rlen).dropWhile (fun b => b == 0))).2 = true
              · rw [if_pos h5] at h
                exact absurd h (by simp)
              · rw [if_neg h5] at h
                exact absurd h (by simp)

/-- Witness for der_parse_integer_unchanged_on_failure: the empty buffer
fails and returns the scalar 7 unchanged. -/
theorem der_parse_integer_unchanged_witness :
    (rustsecp256k1_v0_1_0_der_parse_integer 7 []).2.1 = 7 :=
  der_parse_integer_unchanged_on_failure 7 [] (by decide)

/-- C8: signature parsing succeeds only if the first byte is 0x30, the
decoded sequence length exactly equals the bytes remaining after the length
octets, both contained INTEGERs parse in order, and the cursor after the
second INTEGER is exactly the buffer end. -/
theorem ecdsa_sig_parse_success_structure (rr0 rs0 : ZMod secp256k1_n)
    (sig : List ℕ) (h : (rustsecp256k1_v0_1_0_ecdsa_sig_parse rr0 rs0 sig).1 = true) :
    ∃ rest rlen rest2 rr1 rest3 rs1,
      sig = 0x30 :: rest ∧
      rustsecp256k1_v0_1_0_der_read_len rest = some (rlen, rest2) ∧
      rlen = rest2.length ∧
      rustsecp256k1_v0_1_0_der_parse_integer rr0 rest2 = (true, rr1, rest3) ∧
      rustsecp256k1_v0_1_0_der_parse_integer rs0 rest3 = (true, rs1, []) := by
  cases sig with
  | nil => exact absurd h (by simp [rustsecp256k1_v0_1_0_ecdsa_sig_parse])
  | cons b rest =>
    by_cases h1 : b ≠ 0x30
    · rw [rustsecp256k1_v0_1_0_ecdsa_sig_parse] at h
      rw [if_pos h1] at h
      exact absurd h (by simp)
    · push_neg at h1
      subst h1
      rcases hrl : rustsecp256k1_v0_1_0_der_read_len rest with _ | ⟨rlen, rest2⟩
      · rw [rustsecp256k1_v0_1_0_ecdsa_sig_parse] at h
        rw [if_neg (by simp), hrl] at h
        exact absurd h (by simp)
      · rw [rustsecp256k1_v0_1_0_ecdsa_sig_parse] at h
        rw [if_neg (by simp), hrl] at h
        simp only [] at h
        by_cases h2 : rest2.length < rlen
        · rw [if_pos h2] at h
          exact absurd h (by simp)
        · rw [if_neg h2] at h
          by_cases h3 : rlen ≠ rest2.length
          · rw [if_pos h3] at h
            exact absurd h (by simp)
          · rw [if_neg h3] at h
            push_neg at h3
            rcases hpr : rustsecp256k1_v0_1_0_der_parse_integer rr0 rest2 with
              ⟨ok1, rr1, rest3⟩
            rw [hpr] at h
            cases ok1 with
            | false => exact absurd h (by simp at h ⊢)
            | true =>
              rw [if_neg (by simp)] at h
              rcases hps : rustsecp256k1_v0_1_0_der_parse_integer rs0 rest3 with
                ⟨ok2, rs1, rest4⟩
              rw [hps] at h
              cases ok2 with
              | false => exact absurd h (by simp at h ⊢)
              | true =>
                rw [if_neg (by simp)] at h
                by_cases h6 : rest4 ≠ []
                · rw [if_pos h6] at h
                  exact absurd h (by simp)
                · push_neg at h6
                  subst h6
                  exact ⟨rest, rlen, rest2, rr1, rest3, rs1, rfl, hrl, h3, hpr, hps⟩

/-- Witness for ecdsa_sig_parse_success_structure: the signature
30 06 02 01 01 02 01 01, encoding r = 1 and s = 1, parses successfully. -/
theorem ecdsa_sig_parse_success_witness :
    ∃ rest rlen rest2 rr1 rest3 rs1,
      ([0x30, 6, 2, 1, 1, 2, 1, 1] : List ℕ) = 0x30 :: rest ∧
      rustsecp256k1_v0_1_0_der_read_len rest = some (rlen, rest2) ∧
      rlen = rest2.length ∧
      rustsecp256k1_v0_1_0_der_parse_integer (0 : ZMod secp256k1_n) rest2 =
        (true, rr1, rest3) ∧
      rustsecp256k1_v0_1_0_der_parse_integer (0 : ZMod secp256k1_n) rest3 =
        (true, rs1, []) :=
  ecdsa_sig_parse_success_structure 0 0 [0x30, 6, 2, 1, 1, 2, 1, 1] (by decide)

/-! Helper lemmas about big-endian byte encoding and decoding. -/

theorem be_decode_foldl (l : List ℕ) (a : ℕ) :
    l.foldl (fun x b => x * 256 + b) a = a * 256 ^ l.length + be_decode l := by
  induction l generalizing a with
  | nil => simp [be_decode]
  | cons b t ih =>
    have h1 : be_decode (b :: t) = t.foldl (fun x b => x * 256 + b) b := by
      simp [be_decode]
    rw [List.foldl_cons, ih (a * 256 + b), h1, ih b, List.length_cons]
    ring

theorem be_decode_append (l1 l2 : List ℕ) :
    be_decode (l1 ++ l2) = be_decode l1 * 256 ^ l2.length + be_decode l2 := by
  rw [be_decode, List.foldl_append]
  exact be_decode_foldl l2 (be_decode l1)

theorem be_decode_cons_zero (t : List ℕ) : be_decode (0 :: t) = be_decode t := by
  simp [be_decode]

theorem be_decode_replicate_zero (k : ℕ) (l : List ℕ) :
    be_decode (List.replicate k 0 ++ l) = be_decode l := by
  induction k with
  | zero => simp
  | succ k ih => rw [List.replicate_succ, List.cons_append, be_decode_cons_zero, ih]

theorem be_decode_dropWhile_zero (l : List ℕ) :
    be_decode (l.dropWhile (fun b => b == 0)) = be_decode l := by
  induction l with
  | nil => rfl
  | cons b t ih =>
    by_cases hb : b = 0
    · subst hb
      rw [List.dropWhile_cons_of_pos (by simp), ih, be_decode_cons_zero]
    · rw [List.dropWhile_cons_of_neg (by simp [hb])]

theorem beBytes_length (k v : ℕ) : (beBytes k v).length = k := by
  induction k generalizing v with
  | zero => rfl
  | succ k ih => simp [beBytes, ih]

theorem beBytes_lt (k v : ℕ) : ∀ x ∈ beBytes k v, x < 256 := by
  induction k generalizing v with
  | zero => simp [beBytes]
  | succ k ih =>
    intro x hx
    simp only [beBytes, List.mem_append, List.mem_singleton] at hx
    rcases hx with hx | hx
    · exact ih (v / 256) x hx
    · rw [hx]
      exact Nat.mod_lt _ (by norm_num)

theorem beBytes_decode (k v : ℕ) (h : v < 256 ^ k) : be_decode (beBytes k v) = v := by
  induction k generalizing v with
  | zero =>
    have hv : v = 0 := by simpa using h
    simp [hv, beBytes, be_decode]
  | succ k ih =>
    rw [beBytes, be_decode_append]
    have hd : v / 256 < 256 ^ k := by
      rw [Nat.div_lt_iff_lt_mul (by norm_num : 0 < 256)]
      rw [pow_succ] at h
      exact h
    rw [ih (v / 256) hd]
    have hm : be_decode [v % 256] = v % 256 := by simp [be_decode]
    rw [hm]
    simp only [List.length_singleton, pow_one]
    omega

/-! Helper lemmas about the serializer's leading-byte stripping loop. -/

theorem sig_strip_ne_nil (l : List ℕ) (h : l ≠ []) : sig_strip l ≠ [] := by
  induction l with
  | nil => exact absurd rfl h
  | cons a t ih =>
    cases t with
    | nil => simp [sig_strip]
    | cons b rest =>
      by_cases hc : a = 0 ∧ b < 0x80
      · rw [sig_strip, if_pos hc]
        exact ih (by simp)
      · rw [sig_strip, if_neg hc]
        simp

theorem sig_strip_length_le (l : List ℕ) : (sig_strip l).length ≤ l.length := by
  induction l with
  | nil => simp [sig_strip]
  | cons a t ih =>
    cases t with
    | nil => simp [sig_strip]
    | cons b rest =>
      by_cases hc : a = 0 ∧ b < 0x80
      · rw [sig_strip, if_pos hc]
        exact le_trans ih (by simp)
      · rw [sig_strip, if_neg hc]

theorem sig_strip_eq_of_length (l : List ℕ)
    (h : (sig_strip l).length = l.length) : sig_strip l = l := by
  induction l with
  | nil => simp [sig_strip]
  | cons a t ih =>
    cases t with
    | nil => simp [sig_strip]
    | cons b rest =>
      by_cases hc : a = 0 ∧ b < 0x80
      · rw [sig_strip, if_pos hc] at h ⊢
        have h1 := sig_strip_length_le (b :: rest)
        exfalso
        simp only [List.length_cons] at h h1
        omega
      · rw [sig_strip, if_neg hc]

theorem sig_strip_headD_lt (l : List ℕ) (h : l.headD 0 < 0x80) :
    (sig_strip l).headD 0 < 0x80 := by
  induction l with
  | nil => simp [sig_strip]
  | cons a t ih =>
    cases t with
    | nil => simpa [sig_strip] using h
    | cons b rest =>
      by_cases hc : a = 0 ∧ b < 0x80
      · rw [sig_strip, if_pos hc]
        exact ih (by simpa using hc.2)
      · rw [sig_strip, if_neg hc]
        simpa using h

theorem sig_strip_min (l : List ℕ) :
    ¬((sig_strip l).headD 0 = 0 ∧ 1 < (sig_strip l).length ∧
      (sig_strip l).tail.headD 0 < 0x80) := by
  induction l with
  | nil => simp [sig_strip]
  | cons a t ih =>
    cases t with
    | nil => simp [sig_strip]
    | cons b rest =>
      by_cases hc : a = 0 ∧ b < 0x80
      · rw [sig_strip, if_pos hc]
        exact ih
      · rw [sig_strip, if_neg hc]
        rintro ⟨x1, _, x3⟩
        simp at x1 x3
        exact hc ⟨x1, x3⟩

theorem sig_strip_decode (l : List ℕ) : be_decode (sig_strip l) = be_decode l := by
  induction l with
  | nil => simp [sig_strip]
  | cons a t ih =>
    cases t with
    | nil => simp [sig_strip]
    | cons b rest =>
      by_cases hc : a = 0 ∧ b < 0x80
      · rw [sig_strip, if_pos hc, ih, hc.1, be_decode_cons_zero]
      · rw [sig_strip, if_neg hc]

theorem sig_strip_mem (l : List ℕ) : ∀ x ∈ sig_strip l, x ∈ l := by
  induction l with
  | nil => simp [sig_strip]
  | cons a t ih =>
    cases t with
    | nil => simp [sig_strip]
    | cons b rest =>
      by_cases hc : a = 0 ∧ b < 0x80
      · rw [sig_strip, if_pos hc]
        intro x hx
        exact List.mem_cons_of_mem a (ih x hx)
      · rw [sig_strip, if_neg hc]
        exact fun x hx => hx

theorem dropWhile_zero_length_le (l : List ℕ) :
    (l.dropWhile (fun b => b == 0)).length ≤ l.length := by
  induction l with
  | nil => simp
  | cons b t ih =>
    by_cases hb : b = 0
    · subst hb
      rw [List.dropWhile_cons_of_pos (by simp)]
      exact le_trans ih (by simp)
    · rw [List.dropWhile_cons_of_neg (by simp [hb])]

theorem headD_append_of_ne_nil (l1 l2 : List ℕ) (h : l1 ≠ []) :
    (l1 ++ l2).headD 0 = l1.headD 0 := by
  cases l1 with
  | nil => exact absurd rfl h
  | cons a t => rfl

theorem tail_append_of_ne_nil (l1 l2 : List ℕ) (h : l1 ≠ []) :
    (l1 ++ l2).tail = l1.tail ++ l2 := by
  cases l1 with
  | nil => exact absurd rfl h
  | cons a t => rfl

theorem secp256k1_n_lt_pow32 : secp256k1_n < 256 ^ 32 := by decide

/-- Parsing one DER INTEGER whose content bytes rb are a minimal positive
encoding of a value below n: the parser succeeds, returns the value, and
leaves exactly the bytes after the integer. -/
theorem der_parse_integer_of_stripped (r0 : ZMod secp256k1_n)
    (rb tail : List ℕ) (v : ℕ)
    (hne : rb ≠ []) (hlen : rb.length ≤ 33)
    (hbytes : ∀ x ∈ rb, x < 256)
    (hhead : rb.headD 0 < 0x80)
    (hmin : ¬(rb.headD 0 = 0 ∧ 1 < rb.length ∧ rb.tail.headD 0 < 0x80))
    (hlen33 : rb.length = 33 → rb.headD 0 = 0)
    (hval : be_decode rb = v) (hv : v < secp256k1_n) :
    rustsecp256k1_v0_1_0_der_parse_integer r0 (0x02 :: rb.length :: (rb ++ tail)) =
      (true, ((v : ℕ) : ZMod secp256k1_n), tail) := by
  have hpos : 0 < rb.length := List.length_pos.mpr hne
  have h128 : rb.length < 128 := by omega
  have hcore : ((rb ++ tail).take rb.length).dropWhile (fun b => b == 0) =
      rb.dropWhile (fun b => b == 0) := by
    rw [List.take_left]
  have hcorelen : (rb.dropWhile (fun b => b == 0)).length ≤ 32 := by
    by_cases h33 : rb.length = 33
    · have hh := hlen33 h33
      cases rb with
      | nil => exact absurd rfl hne
      | cons a t =>
        simp only [List.headD_cons] at hh
        subst hh
        rw [List.dropWhile_cons_of_pos (by simp)]
        have := dropWhile_zero_length_le t
        simp only [List.length_cons] at h33
        omega
    · have := dropWhile_zero_length_le rb
      omega
  have hdecode : be_decode (List.replicate
      (32 - (rb.dropWhile (fun b => b == 0)).length) 0 ++
      rb.dropWhile (fun b => b == 0)) = v := by
    rw [be_decode_replicate_zero, be_decode_dropWhile_zero, hval]
  simp only [rustsecp256k1_v0_1_0_der_parse_integer]
  rw [if_neg (by simp)]
  rw [der_read_len_short (rb ++ tail) h128]
  simp only [rustsecp256k1_v0_1_0_scalar_set_b32, hcore, List.length_append]
  rw [if_neg (by omega)]
  rw [if_neg ?hc2]
  case hc2 =>
    rintro ⟨x1, x2, x3⟩
    rw [headD_append_of_ne_nil rb tail hne] at x1
    have htne : rb.tail ≠ [] := by
      cases rb with
      | nil => exact absurd rfl hne
      | cons a t =>
        simp only [List.length_cons] at x2
        simp only [List.tail_cons]
        intro hnil
        rw [hnil] at x2
        simp at x2
    rw [tail_append_of_ne_nil rb tail hne,
      headD_append_of_ne_nil rb.tail tail htne] at x3
    have hsecond256 : rb.tail.headD 0 < 256 := by
      cases rb with
      | nil => exact absurd rfl hne
      | cons a t =>
        cases t with
        | nil => exact absurd rfl htne
        | cons b t2 => exact hbytes b (by simp)
    exact hmin ⟨x1, x2, lt_128_of_land128_eq_zero hsecond256 x3⟩
  rw [if_neg ?hc3]
  case hc3 =>
    rintro ⟨x1, _, _⟩
    rw [headD_append_of_ne_nil rb tail hne] at x1
    omega
  rw [if_neg ?hc4]
  case hc4 =>
    rintro (x1 | x2 | x3)
    · rw [headD_append_of_ne_nil rb tail hne, land128_of_lt hhead] at x1
      norm_num at x1
    · omega
    · rw [decide_eq_true_eq, hdecode] at x3
      omega
  rw [List.drop_left, hdecode]

/-- Parsing the DER INTEGER that serialization produces for a scalar a
(length byte, then the stripped big-endian bytes of a) recovers exactly a. -/
theorem der_parse_integer_scalar (r0 a : ZMod secp256k1_n) (tail : List ℕ) :
    rustsecp256k1_v0_1_0_der_parse_integer r0
      (0x02 :: (sig_strip (0 :: beBytes 32 a.val)).length ::
        (sig_strip (0 :: beBytes 32 a.val) ++ tail)) = (true, a, tail) := by
  have h0 : (0 : ℕ) :: beBytes 32 a.val ≠ [] := by simp
  have hne := sig_strip_ne_nil _ h0
  have hfull : ((0 : ℕ) :: beBytes 32 a.val).length = 33 := by
    simp [beBytes_length]
  have hlenle : (sig_strip (0 :: beBytes 32 a.val)).length ≤ 33 := by
    have h1 := sig_strip_length_le (0 :: beBytes 32 a.val)
    omega
  have hbytes : ∀ x ∈ sig_strip (0 :: beBytes 32 a.val), x < 256 := by
    intro x hx
    have hx2 := sig_strip_mem _ x hx
    rcases List.mem_cons.mp hx2 with h | h
    · omega
    · exact beBytes_lt 32 a.val x h
  have hhead : (sig_strip (0 :: beBytes 32 a.val)).headD 0 < 0x80 :=
    sig_strip_headD_lt _ (by simp)
  have hmin' := sig_strip_min (0 :: beBytes 32 a.val)
  have hlen33 : (sig_strip (0 :: beBytes 32 a.val)).length = 33 →
      (sig_strip (0 :: beBytes 32 a.val)).headD 0 = 0 := by
    intro h33
    have heq := sig_strip_eq_of_length (0 :: beBytes 32 a.val) (by omega)
    rw [heq]
    rfl
  have hval : be_decode (sig_strip (0 :: beBytes 32 a.val)) = a.val := by
    rw [sig_strip_decode, be_decode_cons_zero,
      beBytes_decode 32 a.val (lt_trans (ZMod.val_lt a) secp256k1_n_lt_pow32)]
  have hmain := der_parse_integer_of_stripped r0 _ tail a.val hne hlenle hbytes
    hhead hmin' hlen33 hval (ZMod.val_lt a)
  have hcast : ((a.val : ℕ) : ZMod secp256k1_n) = a := ZMod.natCast_rightInverse a
  rw [hcast] at hmain
  exact hmain

/-- Assembling a DER signature from two well-formed INTEGER bodies parses
back to the two scalars; rb and sb are opaque content-byte lists here. -/
theorem ecdsa_sig_parse_build (rr0 rs0 ar as : ZMod secp256k1_n)
    (rb sb : List ℕ)
    (hrlen : rb.length ≤ 33) (hslen : sb.length ≤ 33)
    (h1 : rustsecp256k1_v0_1_0_der_parse_integer rr0
      (0x02 :: rb.length :: (rb ++ (0x02 :: sb.length :: sb))) =
      (true, ar, 0x02 :: sb.length :: sb))
    (h2 : rustsecp256k1_v0_1_0_der_parse_integer rs0
      (0x02 :: sb.length :: sb) = (true, as, [])) :
    rustsecp256k1_v0_1_0_ecdsa_sig_parse rr0 rs0
      ([0x30, 4 + sb.length + rb.length, 0x02, rb.length] ++ rb ++
        [0x02, sb.length] ++ sb) = (true, ar, as) := by
  simp only [List.cons_append, List.nil_append, List.append_assoc]
  simp only [rustsecp256k1_v0_1_0_ecdsa_sig_parse]
  rw [if_neg (by simp)]
  rw [der_read_len_short _ (by omega)]
  simp only []
  rw [if_neg ?hlen1, if_neg ?hlen2]
  case hlen1 =>
    simp only [List.length_cons, List.length_append]
    omega
  case hlen2 =>
    simp only [List.length_cons, List.length_append]
    omega
  have h1b : rustsecp256k1_v0_1_0_der_parse_integer rr0
      (0x02 :: rb.length :: (rb ++ 0x02 :: sb.length :: sb)) =
      (true, ar, 0x02 :: sb.length :: sb) := h1
  rw [h1b]
  simp only []
  rw [if_neg (by simp), h2]
  simp only []
  rw [if_neg (by simp)]
  rw [if_neg (by simp)]

/-- C3: serializing scalars (r, s) with r, s in [1, n-1] and s in the low
half into a sufficiently large buffer succeeds, and parsing the produced
bytes succeeds and returns exactly (r, s), whatever values the output
scalars held before the parse. -/
theorem ecdsa_sig_serialize_parse_roundtrip (ar as : ZMod secp256k1_n)
    (sz : ℕ) (rr0 rs0 : ZMod secp256k1_n) (har : ar ≠ 0) (has : as ≠ 0)
    (hlow : as.val ≤ secp256k1_n / 2) (hsz : 72 ≤ sz) :
    ∃ bs, (rustsecp256k1_v0_1_0_ecdsa_sig_serialize sz ar as).1 = some bs ∧
      rustsecp256k1_v0_1_0_ecdsa_sig_parse rr0 rs0 bs = (true, ar, as) := by
  have hrne := sig_strip_ne_nil ((0 : ℕ) :: beBytes 32 ar.val) (by simp)
  have hsne := sig_strip_ne_nil ((0 : ℕ) :: beBytes 32 as.val) (by simp)
  have hrlen : (sig_strip (0 :: beBytes 32 ar.val)).length ≤ 33 := by
    have h1 := sig_strip_length_le (0 :: beBytes 32 ar.val)
    simp only [List.length_cons, beBytes_length] at h1
    omega
  have hslen : (sig_strip (0 :: beBytes 32 as.val)).length ≤ 33 := by
    have h1 := sig_strip_length_le (0 :: beBytes 32 as.val)
    simp only [List.length_cons, beBytes_length] at h1
    omega
  have hrpos : 0 < (sig_strip (0 :: beBytes 32 ar.val)).length :=
    List.length_pos.mpr hrne
  have hspos : 0 < (sig_strip (0 :: beBytes 32 as.val)).length :=
    List.length_pos.mpr hsne
  refine ⟨[0x30, 4 + (sig_strip (0 :: beBytes 32 as.val)).length +
      (sig_strip (0 :: beBytes 32 ar.val)).length, 0x02,
      (sig_strip (0 :: beBytes 32 ar.val)).length] ++
      sig_strip (0 :: beBytes 32 ar.val) ++
      [0x02, (sig_strip (0 :: beBytes 32 as.val)).length] ++
      sig_strip (0 :: beBytes 32 as.val), ?_, ?_⟩
  · simp only [rustsecp256k1_v0_1_0_ecdsa_sig_serialize,
      rustsecp256k1_v0_1_0_scalar_get_b32]
    rw [if_neg (by omega)]
  · have hint1 := der_parse_integer_scalar rr0 ar
      (0x02 :: (sig_strip (0 :: beBytes 32 as.val)).length ::
        sig_strip (0 :: beBytes 32 as.val))
    have hint2 := der_parse_integer_scalar rs0 as ([] : List ℕ)
    rw [List.append_nil] at hint2
    exact ecdsa_sig_parse_build rr0 rs0 ar as _ _ hrlen hslen hint1 hint2

/-- Witness for ecdsa_sig_serialize_parse_roundtrip at r = 1, s = 1 with a
72-byte buffer. -/
theorem ecdsa_sig_serialize_parse_roundtrip_witness :
    ∃ bs, (rustsecp256k1_v0_1_0_ecdsa_sig_serialize 72 1 1).1 = some bs ∧
      rustsecp256k1_v0_1_0_ecdsa_sig_parse 0 0 bs = (true, 1, 1) :=
  ecdsa_sig_serialize_parse_roundtrip 1 1 72 0 0 (by decide) (by decide)
    (by decide) (by decide)

/-- C6: serialization always stores the required size 6+lenS+lenR in the
size out-parameter; when the caller's capacity is below that size it fails
writing nothing (modelled by none), and otherwise it succeeds. -/
theorem ecdsa_sig_serialize_size_report (ar as : ZMod secp256k1_n) (sz : ℕ) :
    (rustsecp256k1_v0_1_0_ecdsa_sig_serialize sz ar as).2 =
      6 + (sig_strip (0 :: rustsecp256k1_v0_1_0_scalar_get_b32 as)).length +
        (sig_strip (0 :: rustsecp256k1_v0_1_0_scalar_get_b32 ar)).length ∧
    (sz < 6 + (sig_strip (0 :: rustsecp256k1_v0_1_0_scalar_get_b32 as)).length +
        (sig_strip (0 :: rustsecp256k1_v0_1_0_scalar_get_b32 ar)).length →
      (rustsecp256k1_v0_1_0_ecdsa_sig_serialize sz ar as).1 = none) ∧
    (6 + (sig_strip (0 :: rustsecp256k1_v0_1_0_scalar_get_b32 as)).length +
        (sig_strip (0 :: rustsecp256k1_v0_1_0_scalar_get_b32 ar)).length ≤ sz →
      ∃ bs, (rustsecp256k1_v0_1_0_ecdsa_sig_serialize sz ar as).1 = some bs) := by
  by_cases h : sz < 6 + (sig_strip (0 :: rustsecp256k1_v0_1_0_scalar_get_b32 as)).length +
      (sig_strip (0 :: rustsecp256k1_v0_1_0_scalar_get_b32 ar)).length
  · refine ⟨?_, fun _ => ?_, fun hc => absurd hc (by omega)⟩
    · simp only [rustsecp256k1_v0_1_0_ecdsa_sig_serialize]
      rw [if_pos h]
    · simp only [rustsecp256k1_v0_1_0_ecdsa_sig_serialize]
      rw [if_pos h]
  · refine ⟨?_, fun hc => absurd hc (by omega), fun _ => ?_⟩
    · simp only [rustsecp256k1_v0_1_0_ecdsa_sig_serialize]
      rw [if_neg h]
    · simp only [rustsecp256k1_v0_1_0_ecdsa_sig_serialize]
      rw [if_neg h]
      exact ⟨_, rfl⟩

/-- Witness for ecdsa_sig_serialize_size_report: with capacity 0 the
serializer reports the required size 8 for (0, 0) and writes nothing; with
capacity 72 it succeeds. -/
theorem ecdsa_sig_serialize_size_report_witness :
    (rustsecp256k1_v0_1_0_ecdsa_sig_serialize 0 0 0).1 = none ∧
    (∃ bs, (rustsecp256k1_v0_1_0_ecdsa_sig_serialize 72 0 0).1 = some bs) :=
  ⟨(ecdsa_sig_serialize_size_report 0 0 0).2.1 (by decide),
    (ecdsa_sig_serialize_size_report 0 0 72).2.2 (by decide)⟩

/-- C10: both stripped integer encodings have between 1 and 33 bytes, so the
required size is at most 72 and the sequence body length 4+lenS+lenR is
below 128, making the single short-form length byte the serializer writes a
valid DER length encoding (the length decoder reads it back as written). -/
theorem ecdsa_sig_serialize_length_bounds (ar as : ZMod secp256k1_n)
    (rest : List ℕ) :
    (1 ≤ (sig_strip (0 :: rustsecp256k1_v0_1_0_scalar_get_b32 ar)).length ∧
      (sig_strip (0 :: rustsecp256k1_v0_1_0_scalar_get_b32 ar)).length ≤ 33) ∧
    (1 ≤ (sig_strip (0 :: rustsecp256k1_v0_1_0_scalar_get_b32 as)).length ∧
      (sig_strip (0 :: rustsecp256k1_v0_1_0_scalar_get_b32 as)).length ≤ 33) ∧
    6 + (sig_strip (0 :: rustsecp256k1_v0_1_0_scalar_get_b32 as)).length +
      (sig_strip (0 :: rustsecp256k1_v0_1_0_scalar_get_b32 ar)).length ≤ 72 ∧
    4 + (sig_strip (0 :: rustsecp256k1_v0_1_0_scalar_get_b32 as)).length +
      (sig_strip (0 :: rustsecp256k1_v0_1_0_scalar_get_b32 ar)).length < 128 ∧
    rustsecp256k1_v0_1_0_der_read_len
      ((4 + (sig_strip (0 :: rustsecp256k1_v0_1_0_scalar_get_b32 as)).length +
        (sig_strip (0 :: rustsecp256k1_v0_1_0_scalar_get_b32 ar)).length) :: rest) =
      some (4 + (sig_strip (0 :: rustsecp256k1_v0_1_0_scalar_get_b32 as)).length +
        (sig_strip (0 :: rustsecp256k1_v0_1_0_scalar_get_b32 ar)).length, rest) := by
  have hrne := sig_strip_ne_nil ((0 : ℕ) :: rustsecp256k1_v0_1_0_scalar_get_b32 ar)
    (by simp)
  have hsne := sig_strip_ne_nil ((0 : ℕ) :: rustsecp256k1_v0_1_0_scalar_get_b32 as)
    (by simp)
  have hrpos := List.length_pos.mpr hrne
  have hspos := List.length_pos.mpr hsne
  have hrlen := sig_strip_length_le ((0 : ℕ) :: rustsecp256k1_v0_1_0_scalar_get_b32 ar)
  have hslen := sig_strip_length_le ((0 : ℕ) :: rustsecp256k1_v0_1_0_scalar_get_b32 as)
  simp only [List.length_cons, rustsecp256k1_v0_1_0_scalar_get_b32,
    beBytes_length] at hrlen hslen
  refine ⟨⟨hrpos, ?_⟩, ⟨hspos, ?_⟩, ?_, ?_, ?_⟩
  · simpa [rustsecp256k1_v0_1_0_scalar_get_b32] using hrlen
  · simpa [rustsecp256k1_v0_1_0_scalar_get_b32] using hslen
  · simp only [rustsecp256k1_v0_1_0_scalar_get_b32] at hrlen hslen ⊢
    omega
  · simp only [rustsecp256k1_v0_1_0_scalar_get_b32] at hrlen hslen ⊢
    omega
  · refine der_read_len_short rest ?_
    simp only [rustsecp256k1_v0_1_0_scalar_get_b32] at hrlen hslen ⊢
    omega

/-! Helper lemmas about the scalar inverse and the group model. -/

theorem powModAux_eq_pow :
    ∀ (fuel : ℕ) (b : ZMod secp256k1_n) (e : ℕ), e < 2 ^ fuel →
      powModAux fuel b e = b ^ e := by
  intro fuel
  induction fuel with
  | zero =>
    intro b e he
    have : e = 0 := by simpa using he
    simp [this, powModAux]
  | succ fuel ih =>
    intro b e he
    rw [powModAux]
    by_cases h0 : e = 0
    · simp [h0]
    · rw [if_neg h0]
      have hdiv : e / 2 < 2 ^ fuel := by
        rw [Nat.div_lt_iff_lt_mul (by norm_num : 0 < 2)]
        rw [pow_succ] at he
        exact he
      rw [ih (b * b) (e / 2) hdiv]
      have hsq : (b * b) ^ (e / 2) = b ^ (2 * (e / 2)) := by
        rw [two_mul, pow_add, mul_pow]
      rw [hsq]
      rcases Nat.even_or_odd e with he2 | he2
      · have hm : e % 2 = 0 := Nat.even_iff.mp he2
        rw [if_neg (by omega), one_mul]
        congr 1
        omega
      · have hm : e % 2 = 1 := Nat.odd_iff.mp he2
        rw [if_pos hm, ← pow_succ']
        congr 1
        omega

theorem scalar_inverse_eq_pow (x : ZMod secp256k1_n) :
    rustsecp256k1_v0_1_0_scalar_inverse x = x ^ (secp256k1_n - 2) :=
  powModAux_eq_pow 257 x (secp256k1_n - 2) (by decide)

theorem secp256k1_n_sub_two_odd : Odd (secp256k1_n - 2) := by
  rw [Nat.odd_iff]
  decide

theorem scalar_inverse_neg (x : ZMod secp256k1_n) :
    rustsecp256k1_v0_1_0_scalar_inverse (-x) =
      -rustsecp256k1_v0_1_0_scalar_inverse x := by
  rw [scalar_inverse_eq_pow, scalar_inverse_eq_pow]
  exact secp256k1_n_sub_two_odd.neg_pow x

/-- In a group of exponent dividing n, scalar multiplication by the value of
a negated scalar is the negation of scalar multiplication by the value. -/
theorem neg_val_smul {G : Type} [AddCommGroup G]
    (hord : ∀ P : G, secp256k1_n • P = 0) (u : ZMod secp256k1_n) (P : G) :
    (-u).val • P = -(u.val • P) := by
  by_cases hu : u = 0
  · simp [hu]
  · have hval : (-u).val = secp256k1_n - u.val := by
      rw [ZMod.neg_val, if_neg hu]
    have hle : u.val ≤ secp256k1_n := le_of_lt (ZMod.val_lt u)
    refine eq_neg_of_add_eq_zero_left ?_
    rw [hval, ← add_nsmul, Nat.sub_add_cancel hle, hord]

/-- Negating s negates the point recomputed by verification. -/
theorem ecdsa_verify_point_neg_s {G : Type} [AddCommGroup G]
    (hord : ∀ P : G, secp256k1_n • P = 0) (gen q : G)
    (sigr sigs m : ZMod secp256k1_n) :
    ecdsa_verify_point gen q sigr (-sigs) m =
      -ecdsa_verify_point gen q sigr sigs m := by
  simp only [ecdsa_verify_point, rustsecp256k1_v0_1_0_ecmult]
  rw [scalar_inverse_neg, neg_mul, neg_mul, neg_val_smul hord, neg_val_smul hord,
    neg_add]

/-- C1: verification of (r, n-s) agrees with verification of (r, s) for
every public key point, message scalar and signature scalars, over any model
of the curve group (a commutative group of exponent n whose x-coordinate
assignment is negation-invariant). -/
theorem ecdsa_sig_verify_malleable {G : Type} [AddCommGroup G] [DecidableEq G]
    (xc : G → ZMod secp256k1_p) (gen q : G)
    (hord : ∀ P : G, secp256k1_n • P = 0) (hx : ∀ P : G, xc (-P) = xc P)
    (sigr sigs m : ZMod secp256k1_n) :
    rustsecp256k1_v0_1_0_ecdsa_sig_verify xc gen q sigr (-sigs) m =
      rustsecp256k1_v0_1_0_ecdsa_sig_verify xc gen q sigr sigs m := by
  simp only [rustsecp256k1_v0_1_0_ecdsa_sig_verify]
  by_cases h0 : sigr = 0 ∨ sigs = 0
  · rw [if_pos (by rcases h0 with h | h; exacts [Or.inl h, Or.inr (by simp [h])]),
      if_pos h0]
  · rw [if_neg (by rcases not_or.mp h0 with ⟨h1, h2⟩; simp [h1, h2]), if_neg h0]
    rw [ecdsa_verify_point_neg_s hord]
    by_cases hinf : ecdsa_verify_point gen q sigr sigs m = 0
    · rw [hinf]
      simp
    · rw [if_neg (by simpa using hinf), if_neg hinf]
      simp only [ecdsa_check_x, hx]

/-- Witness for ecdsa_sig_verify_malleable over the trivial one-point group
model with the zero x-coordinate assignment, at r = 3, s = 5, m = 7. -/
theorem ecdsa_sig_verify_malleable_witness :
    (∀ P : PUnit.{1}, secp256k1_n • P = 0) ∧
    (∀ P : PUnit.{1}, (fun _ : PUnit.{1} => (0 : ZMod secp256k1_p)) (-P) =
      (fun _ : PUnit.{1} => (0 : ZMod secp256k1_p)) P) ∧
    rustsecp256k1_v0_1_0_ecdsa_sig_verify
        (fun _ : PUnit.{1} => (0 : ZMod secp256k1_p)) PUnit.unit PUnit.unit
        3 (-5) 7 =
      rustsecp256k1_v0_1_0_ecdsa_sig_verify
        (fun _ : PUnit.{1} => (0 : ZMod secp256k1_p)) PUnit.unit PUnit.unit
        3 5 7 :=
  ⟨fun P => Subsingleton.elim _ _, fun P => rfl,
    ecdsa_sig_verify_malleable (fun _ => (0 : ZMod secp256k1_p)) PUnit.unit
      PUnit.unit (fun P => Subsingleton.elim _ _) (fun P => rfl) 3 5 7⟩

theorem p_minus_order_val :
    rustsecp256k1_v0_1_0_ecdsa_const_p_minus_order.val =
      secp256k1_p - secp256k1_n := by
  exact ZMod.val_cast_of_lt (by decide)

/-- C2: when the recomputed point is not infinity and the first x-coordinate
test fails, verification rejects outright if xr is at least the constant
p - n (so xr + n wraps past p), and otherwise accepts exactly when the same
test holds for xr + n. -/
theorem ecdsa_sig_verify_second_candidate {G : Type} [AddCommGroup G]
    [DecidableEq G] (xc : G → ZMod secp256k1_p) (gen q : G)
    (sigr sigs m : ZMod secp256k1_n) (h0r : sigr ≠ 0) (h0s : sigs ≠ 0)
    (hinf : ecdsa_verify_point gen q sigr sigs m ≠ 0)
    (hfail : xc (ecdsa_verify_point gen q sigr sigs m) ≠
      ((sigr.val : ℕ) : ZMod secp256k1_p)) :
    rustsecp256k1_v0_1_0_ecdsa_sig_verify xc gen q sigr sigs m =
      if secp256k1_p - secp256k1_n ≤ (((sigr.val : ℕ) : ZMod secp256k1_p)).val
      then false
      else decide (xc (ecdsa_verify_point gen q sigr sigs m) =
        ((sigr.val : ℕ) : ZMod secp256k1_p) +
          rustsecp256k1_v0_1_0_ecdsa_const_order_as_fe) := by
  simp only [rustsecp256k1_v0_1_0_ecdsa_sig_verify]
  rw [if_neg (by simp [h0r, h0s]), if_neg hinf]
  simp only [ecdsa_check_x]
  rw [if_neg hfail, p_minus_order_val]

/-- Witness for ecdsa_sig_verify_second_candidate over the integers as group
model, with generator 1, public key 1, r = 1, s = 1, m = 0 and the constant
x-coordinate assignment 2, which fails the first test at a finite point. -/
theorem ecdsa_sig_verify_second_candidate_witness :
    rustsecp256k1_v0_1_0_ecdsa_sig_verify (fun _ : ℤ => (2 : ZMod secp256k1_p))
        1 1 1 1 0 =
      if secp256k1_p - secp256k1_n ≤
          ((((1 : ZMod secp256k1_n).val : ℕ) : ZMod secp256k1_p)).val
      then false
      else decide ((fun _ : ℤ => (2 : ZMod secp256k1_p))
          (ecdsa_verify_point (1 : ℤ) 1 1 1 0) =
        (((1 : ZMod secp256k1_n).val : ℕ) : ZMod secp256k1_p) +
          rustsecp256k1_v0_1_0_ecdsa_const_order_as_fe) :=
  ecdsa_sig_verify_second_candidate (fun _ : ℤ => (2 : ZMod secp256k1_p))
    1 1 1 1 0 (by decide) (by decide) (by decide) (by decide)

/-- C5: whenever signing succeeds the output s is nonzero and in the low
half of the scalar range; when the computed s was high it was replaced by
its negation with the recovery id's low bit flipped, otherwise it is kept
with the recovery id unchanged; and a computed s of zero makes signing
fail. -/
theorem ecdsa_sig_sign_low_s {G : Type} [AddCommGroup G]
    (xc : G → ZMod secp256k1_p) (isOdd : G → Bool) (gen : G)
    (seckey message nonce : ZMod secp256k1_n) (wantRecid : Bool) :
    (ecdsa_sign_s xc gen seckey message nonce = 0 →
      rustsecp256k1_v0_1_0_ecdsa_sig_sign xc isOdd gen seckey message nonce
        wantRecid = none) ∧
    ((rustsecp256k1_v0_1_0_ecdsa_sig_sign xc isOdd gen seckey message nonce
        wantRecid).isSome = true →
      ((rustsecp256k1_v0_1_0_ecdsa_sig_sign xc isOdd gen seckey message nonce
          wantRecid).getD ⟨0, 0, none⟩).sigs ≠ 0 ∧
      ((rustsecp256k1_v0_1_0_ecdsa_sig_sign xc isOdd gen seckey message nonce
          wantRecid).getD ⟨0, 0, none⟩).sigs.val ≤ secp256k1_n / 2 ∧
      ((rustsecp256k1_v0_1_0_ecdsa_sig_sign xc isOdd gen seckey message nonce
          wantRecid).getD ⟨0, 0, none⟩).sigr = ecdsa_sign_r xc gen nonce ∧
      (rustsecp256k1_v0_1_0_scalar_is_high
          (ecdsa_sign_s xc gen seckey message nonce) = true →
        ((rustsecp256k1_v0_1_0_ecdsa_sig_sign xc isOdd gen seckey message nonce
            wantRecid).getD ⟨0, 0, none⟩).sigs =
          -(ecdsa_sign_s xc gen seckey message nonce) ∧
        ((rustsecp256k1_v0_1_0_ecdsa_sig_sign xc isOdd gen seckey message nonce
            wantRecid).getD ⟨0, 0, none⟩).recid =
          (if wantRecid then some (ecdsa_sign_recid0 xc isOdd gen nonce ^^^ 1)
           else none)) ∧
      (rustsecp256k1_v0_1_0_scalar_is_high
          (ecdsa_sign_s xc gen seckey message nonce) = false →
        ((rustsecp256k1_v0_1_0_ecdsa_sig_sign xc isOdd gen seckey message nonce
            wantRecid).getD ⟨0, 0, none⟩).sigs =
          ecdsa_sign_s xc gen seckey message nonce ∧
        ((rustsecp256k1_v0_1_0_ecdsa_sig_sign xc isOdd gen seckey message nonce
            wantRecid).getD ⟨0, 0, none⟩).recid =
          (if wantRecid then some (ecdsa_sign_recid0 xc isOdd gen nonce)
           else none))) := by
  constructor
  · intro h0
    simp only [rustsecp256k1_v0_1_0_ecdsa_sig_sign]
    rw [if_pos h0]
  · intro hs
    by_cases h0 : ecdsa_sign_s xc gen seckey message nonce = 0
    · exfalso
      simp only [rustsecp256k1_v0_1_0_ecdsa_sig_sign] at hs
      rw [if_pos h0] at hs
      simp at hs
    · have hvlt := ZMod.val_lt (ecdsa_sign_s xc gen seckey message nonce)
      cases hh : rustsecp256k1_v0_1_0_scalar_is_high
          (ecdsa_sign_s xc gen seckey message nonce) with
      | true =>
        have hsign : rustsecp256k1_v0_1_0_ecdsa_sig_sign xc isOdd gen seckey
            message nonce wantRecid = some ⟨ecdsa_sign_r xc gen nonce,
              -(ecdsa_sign_s xc gen seckey message nonce),
              if wantRecid then some (ecdsa_sign_recid0 xc isOdd gen nonce ^^^ 1)
              else none⟩ := by
          simp only [rustsecp256k1_v0_1_0_ecdsa_sig_sign]
          rw [if_neg h0, if_pos hh]
        rw [hsign]
        have hhv : secp256k1_n / 2 <
            (ecdsa_sign_s xc gen seckey message nonce).val := by
          simpa [rustsecp256k1_v0_1_0_scalar_is_high] using hh
        have hnegval : (-(ecdsa_sign_s xc gen seckey message nonce)).val =
            secp256k1_n - (ecdsa_sign_s xc gen seckey message nonce).val := by
          rw [ZMod.neg_val, if_neg h0]
        refine ⟨neg_ne_zero.mpr h0, ?_, rfl, fun _ => ⟨rfl, rfl⟩,
          fun hcon => absurd hcon (by simp)⟩
        show (-(ecdsa_sign_s xc gen seckey message nonce)).val ≤ secp256k1_n / 2
        rw [hnegval]
        omega
      | false =>
        have hsign : rustsecp256k1_v0_1_0_ecdsa_sig_sign xc isOdd gen seckey
            message nonce wantRecid = some ⟨ecdsa_sign_r xc gen nonce,
              ecdsa_sign_s xc gen seckey message nonce,
              if wantRecid then some (ecdsa_sign_recid0 xc isOdd gen nonce)
              else none⟩ := by
          simp only [rustsecp256k1_v0_1_0_ecdsa_sig_sign]
          rw [if_neg h0, if_neg (by simp [hh])]
        rw [hsign]
        have hlv : ¬(secp256k1_n / 2 <
            (ecdsa_sign_s xc gen seckey message nonce).val) := by
          simpa [rustsecp256k1_v0_1_0_scalar_is_high] using hh
        refine ⟨h0, ?_, rfl, fun hcon => absurd hcon (by simp),
          fun _ => ⟨rfl, rfl⟩⟩
        show (ecdsa_sign_s xc gen seckey message nonce).val ≤ secp256k1_n / 2
        omega

/-- Witness for ecdsa_sig_sign_low_s over the integers as group model with
the constant x-coordinate 1, even y-parity, seckey = message = nonce = 1 and
a requested recovery id: signing succeeds with a nonzero low-half s. -/
theorem ecdsa_sig_sign_low_s_witness :
    (rustsecp256k1_v0_1_0_ecdsa_sig_sign (fun _ : ℤ => (1 : ZMod secp256k1_p))
        (fun _ => false) 0 1 1 1 true).isSome = true ∧
    ((rustsecp256k1_v0_1_0_ecdsa_sig_sign (fun _ : ℤ => (1 : ZMod secp256k1_p))
        (fun _ => false) 0 1 1 1 true).getD ⟨0, 0, none⟩).sigs ≠ 0 ∧
    ((rustsecp256k1_v0_1_0_ecdsa_sig_sign (fun _ : ℤ => (1 : ZMod secp256k1_p))
        (fun _ => false) 0 1 1 1 true).getD ⟨0, 0, none⟩).sigs.val ≤
      secp256k1_n / 2 :=
  ⟨by decide,
    ((ecdsa_sig_sign_low_s (fun _ : ℤ => (1 : ZMod secp256k1_p)) (fun _ => false)
      0 1 1 1 true).2 (by decide)).1,
    ((ecdsa_sig_sign_low_s (fun _ : ℤ => (1 : ZMod secp256k1_p)) (fun _ => false)
      0 1 1 1 true).2 (by decide)).2.1⟩
